import Mathlib

/-!
# Bank ledger (`ConsoleApplication1.cpp`): shallow embedding and verified properties

Modelling conventions.

* `double` is modelled by the exact rationals `ℚ` (no rounding, no NaN, no infinities);
  `int` client ids are modelled by `Int` (ids are only compared, never computed with).
* An owning pointer that may be null (`Deposit* deposit`, the static `InterestRates* instance`)
  is an `Option`; the objects held by `vector<Client*> clients` are distinct heap objects, so the
  vector is a `List Client` and a `Client*` into it is the position of the client in that list.
* A member function takes `self` first and returns what it returns in C++ together with the
  state it may write: the new `self` for the member functions of `Bank` and for the `getInterest`
  chain, and the static `InterestRates::instance` for everything that reaches `Instance()`.
  One-line field accessors (`getId`, `getAmount`) are projections.
* Text sent to `cout` is a list of stream items, one per `<<`.
-/

namespace BankLedger

/-! ## Console output -/

/-- One item inserted into `cout` with `<<`. -/
inductive Out where
  | str (s : String)
  | int (i : Int)
  | dbl (q : ℚ)
  | endl
  deriving DecidableEq, Repr

/-! ## `enum class DepositType` -/

/-- The deposit categories, in declaration order. -/
inductive DepositType where
  | Savings
  | Fixed
  deriving DecidableEq, Repr

/-- Underlying value of the enumerator; `std::map` orders its keys by it. -/
def DepositType.toNat : DepositType → Nat
  | .Savings => 0
  | .Fixed => 1

/-! ## `std::map<DepositType, double>` -/

/-- A `std::map<DepositType, double>`: its entries in increasing key order. -/
abbrev RateMap := List (DepositType × ℚ)

/-- The lookup half of `operator[]`: when the key is missing, an entry with the
value-initialised `0.0` is inserted at its place in key order. -/
def RateMap.touch : RateMap → DepositType → RateMap
  | [], k => [(k, 0)]
  | (k', v) :: m, k =>
    if k = k' then (k', v) :: m
    else if k.toNat < k'.toNat then (k, 0) :: (k', v) :: m
    else (k', v) :: RateMap.touch m k

/-- Value stored under a key (`0.0` when there is none). -/
def RateMap.read : RateMap → DepositType → ℚ
  | [], _ => 0
  | (k', v) :: m, k => if k = k' then v else RateMap.read m k

/-- Store through the reference returned by `operator[]`. -/
def RateMap.write : RateMap → DepositType → ℚ → RateMap
  | [], _, _ => []
  | (k', v') :: m, k, v => if k = k' then (k', v) :: m else (k', v') :: RateMap.write m k v

/-- The statement `m[k] = v;`. -/
def RateMap.assign (m : RateMap) (k : DepositType) (v : ℚ) : RateMap :=
  (m.touch k).write k v

/-- The expression `m[k]` read as a value: the value and the map after the access. -/
def RateMap.index (m : RateMap) (k : DepositType) : ℚ × RateMap :=
  ((m.touch k).read k, m.touch k)

/-! ## `class InterestRates` (singleton) -/

/-- The object behind `InterestRates::instance`. -/
structure InterestRates where
  rates : RateMap
  deriving DecidableEq, Repr

/-- The private constructor `InterestRates()`. -/
def InterestRates.new : InterestRates :=
  { rates := (RateMap.assign (RateMap.assign [] .Savings 0.03) .Fixed 0.05) }

/-- The static `InterestRates::instance`, `nullptr` at program start. -/
abbrev InstancePtr := Option InterestRates

/-- The initialiser `InterestRates* InterestRates::instance = nullptr;`. -/
def InterestRates.instance₀ : InstancePtr := none

/-- `InterestRates::Instance()`: the object and the static pointer afterwards. -/
def InterestRates.Instance (inst : InstancePtr) : InterestRates × InstancePtr :=
  match inst with
  | none => (InterestRates.new, some InterestRates.new)
  | some r => (r, some r)

/-- `InterestRates::getRate(type)`: the rate and the object afterwards. -/
def InterestRates.getRate (self : InterestRates) (type : DepositType) : ℚ × InterestRates :=
  let (v, m) := self.rates.index type
  (v, { rates := m })

/-- The call `InterestRates::Instance()->getRate(type)`: the rate and the static pointer
afterwards (the object it points to is the one `getRate` left behind). -/
def InterestRates.callGetRate (type : DepositType) (inst : InstancePtr) : ℚ × InstancePtr :=
  let (r, _) := InterestRates.Instance inst
  let (v, r') := r.getRate type
  (v, some r')

/-- A sequence of `Instance()->getRate(c)` calls: the values returned, in call order, and
the static pointer afterwards. -/
def InterestRates.callsGetRate : List DepositType → InstancePtr → List ℚ × InstancePtr
  | [], inst => ([], inst)
  | c :: cs, inst =>
    let (v, inst') := InterestRates.callGetRate c inst
    let (vs, inst2) := InterestRates.callsGetRate cs inst'
    (v :: vs, inst2)

/-- State of the static pointer after program start followed by the given `getRate` calls
(the only accesses to the singleton the program makes). -/
def InterestRates.after (calls : List DepositType) : InstancePtr :=
  (InterestRates.callsGetRate calls InterestRates.instance₀).2

/-! ## `class Deposit` -/

/-- The data members of `Deposit`. -/
structure Deposit where
  amount : ℚ
  type : DepositType
  deriving DecidableEq, Repr

/-- `Deposit::getInterest()`: the interest, the deposit afterwards, the static pointer
afterwards. -/
def Deposit.getInterest (self : Deposit) (inst : InstancePtr) : ℚ × Deposit × InstancePtr :=
  let (rate, inst') := InterestRates.callGetRate self.type inst
  (self.amount * rate, self, inst')

/-- `Deposit::addAmount(amt)`. -/
def Deposit.addAmount (self : Deposit) (amt : ℚ) : Deposit :=
  { self with amount := self.amount + amt }

/-- `Deposit::getAmount()`. -/
def Deposit.getAmount (self : Deposit) : ℚ := self.amount

/-! ## `class Client` -/

/-- The data members of `Client`. -/
structure Client where
  id : Int
  name : String
  deposit : Option Deposit
  deriving DecidableEq, Repr

/-- The constructor `Client(id, name)`. -/
def Client.new (id : Int) (name : String) : Client :=
  { id := id, name := name, deposit := none }

/-- `Client::addDeposit(dep)`. -/
def Client.addDeposit (self : Client) (dep : Deposit) : Client :=
  { self with deposit := some dep }

/-- `Client::getInterest()`: the interest, the client afterwards, the static pointer
afterwards. -/
def Client.getInterest (self : Client) (inst : InstancePtr) : ℚ × Client × InstancePtr :=
  match self.deposit with
  | some d =>
    let (v, d', inst') := d.getInterest inst
    (v, { self with deposit := some d' }, inst')
  | none => (0.0, self, inst)

/-- `Client::depositAmount(amt)`. -/
def Client.depositAmount (self : Client) (amt : ℚ) : Client :=
  match self.deposit with
  | some d => { self with deposit := some (d.addAmount amt) }
  | none => self

/-- `Client::getId()`. -/
def Client.getId (self : Client) : Int := self.id

/-- `Client::printClientInfo()`: the items written to `cout`. -/
def Client.printClientInfo (self : Client) : List Out :=
  [.str "Client ID: ", .int self.id, .str ", Name: ", .str self.name, .str ", Deposit: "] ++
    (match self.deposit with
     | some d => [.dbl d.getAmount, .endl]
     | none => [.str "No deposit", .endl])

/-! ## `class Bank` -/

/-- The data member of `Bank`. -/
structure Bank where
  clients : List Client
  deriving DecidableEq, Repr

/-- A default-constructed `Bank`. -/
def Bank.new : Bank := { clients := [] }

/-- `Bank::hasClients()`. -/
def Bank.hasClients (self : Bank) : Bool × Bank :=
  (!self.clients.isEmpty, self)

/-- `Bank::addClient(client)`. -/
def Bank.addClient (self : Bank) (client : Client) : Bank :=
  { self with clients := self.clients ++ [client] }

/-- The loop of `findClientById` over the clients from position `pos` on: the position of
the client returned. -/
def Bank.findLoop : List Client → Int → Nat → Option Nat
  | [], _, _ => none
  | client :: rest, clientId, pos =>
    if client.getId = clientId then some pos else Bank.findLoop rest clientId (pos + 1)

/-- `Bank::findClientById(clientId)`: the client returned, as its position in `clients`
(`none` for `nullptr`). -/
def Bank.findClientById (self : Bank) (clientId : Int) : Option Nat × Bank :=
  (Bank.findLoop self.clients clientId 0, self)

/-- Effect on the vector of a member call through the `Client*` at a position. -/
def Bank.atClient (f : Client → Client) : List Client → Nat → List Client
  | [], _ => []
  | c :: cs, 0 => f c :: cs
  | c :: cs, n + 1 => c :: Bank.atClient f cs n

/-- `Bank::depositToClient(clientId, amt)`: the output and the bank afterwards. -/
def Bank.depositToClient (self : Bank) (clientId : Int) (amt : ℚ) : List Out × Bank :=
  let (has, self) := self.hasClients
  if !has then
    ([.str "No existing client.", .endl], self)
  else
    let (client, self) := self.findClientById clientId
    match client with
    | some p =>
      if amt > 0 then
        ([.str "Deposit added to client ID ", .int clientId, .endl],
          { self with clients := Bank.atClient (fun c => c.depositAmount amt) self.clients p })
      else
        ([.str "Invalid client ID or amount.", .endl], self)
    | none => ([.str "Invalid client ID or amount.", .endl], self)

/-- The loop of `totalInterest`: the running total, the clients afterwards, the static
pointer afterwards. -/
def Bank.interestLoop : List Client → ℚ → InstancePtr → ℚ × List Client × InstancePtr
  | [], total, inst => (total, [], inst)
  | client :: rest, total, inst =>
    let (v, client', inst') := client.getInterest inst
    let (total', rest', inst2) := Bank.interestLoop rest (total + v) inst'
    (total', client' :: rest', inst2)

/-- `Bank::totalInterest()`: the value returned, the output, the bank afterwards and the
static pointer afterwards. -/
def Bank.totalInterest (self : Bank) (inst : InstancePtr) : ℚ × List Out × Bank × InstancePtr :=
  let (has, self) := self.hasClients
  if !has then
    (0.0, [.str "No existing client.", .endl], self, inst)
  else
    let (total, clients', inst') := Bank.interestLoop self.clients 0 inst
    (total, [], { self with clients := clients' }, inst')

/-- `Bank::listClients()`: the output and the bank afterwards. -/
def Bank.listClients (self : Bank) : List Out × Bank :=
  let (has, self) := self.hasClients
  if !has then
    ([.str "No existing client.", .endl], self)
  else
    ((self.clients.map Client.printClientInfo).flatten, self)

/-! ## `menu()`: the registry calls of the cases, on the values the input readers return -/

/-- Menu case 1 after its two reads: `bank.addClient(new Client(id, name))`. -/
def menuAddClient (bank : Bank) (id : Int) (name : String) : List Out × Bank :=
  ([.str "Client added successfully.\n"], bank.addClient (Client.new id name))

/-- Menu case 2 after its three reads: look the client up and attach
`new Deposit(amount, depositType)`. -/
def menuAddDeposit (bank : Bank) (clientId : Int) (amount : ℚ) (depositType : DepositType) :
    List Out × Bank :=
  let (client, bank) := bank.findClientById clientId
  match client with
  | some p =>
    ([.str "Deposit added to client ID ", .int clientId, .endl],
      { bank with clients :=
          Bank.atClient (fun c => c.addDeposit (Deposit.mk amount depositType)) bank.clients p })
  | none => ([.str "Client not found.", .endl], bank)

/-! ## Registry operations as steps on the program state -/

/-- The program state the registry operations act on: the bank and the static
`InterestRates::instance`. -/
structure World where
  bank : Bank
  inst : InstancePtr
  deriving DecidableEq, Repr

/-- The state at the start of `menu()`: `Bank bank;` and the null static pointer. -/
def World.init : World := { bank := Bank.new, inst := InterestRates.instance₀ }

/-- A registry operation together with its arguments. -/
inductive Op where
  | addClient (id : Int) (name : String)
  | findClientById (clientId : Int)
  | addDeposit (clientId : Int) (amount : ℚ) (depositType : DepositType)
  | depositToClient (clientId : Int) (amt : ℚ)
  | totalInterest
  | listClients
  deriving DecidableEq, Repr

/-- Whether the operation is an `addClient`. -/
def Op.isAddClient : Op → Bool
  | .addClient _ _ => true
  | _ => false

/-- The state after one operation. -/
def Op.step (op : Op) (w : World) : World :=
  match op with
  | .addClient id name => { w with bank := (menuAddClient w.bank id name).2 }
  | .findClientById clientId => { w with bank := (w.bank.findClientById clientId).2 }
  | .addDeposit clientId amount depositType =>
    { w with bank := (menuAddDeposit w.bank clientId amount depositType).2 }
  | .depositToClient clientId amt => { w with bank := (w.bank.depositToClient clientId amt).2 }
  | .totalInterest =>
    let (_, _, bank', inst') := w.bank.totalInterest w.inst
    { bank := bank', inst := inst' }
  | .listClients => { w with bank := w.bank.listClients.2 }

/-- The state after a sequence of operations, first to last. -/
def run : List Op → World → World
  | [], w => w
  | op :: ops, w => run ops (op.step w)

/-! ## Vocabulary of the specification -/

/-- The configured default rate of a category, as the specification lists them. -/
def configuredRate : DepositType → ℚ
  | .Savings => 0.03
  | .Fixed => 0.05

/-- The status line "No existing client.". -/
def noExistingClient : List Out := [.str "No existing client.", .endl]

/-- The status line "Invalid client ID or amount.". -/
def invalidClientOrAmount : List Out := [.str "Invalid client ID or amount.", .endl]

/-- The status line "Deposit added to client ID " followed by the id. -/
def depositAdded (clientId : Int) : List Out :=
  [.str "Deposit added to client ID ", .int clientId, .endl]

/-- The two failure statuses of `depositToClient`. -/
def IsFailure (out : List Out) : Prop :=
  out = noExistingClient ∨ out = invalidClientOrAmount

instance (out : List Out) : Decidable (IsFailure out) := by
  unfold IsFailure; infer_instance

/-- What one client adds to the total interest according to the specification. -/
def contribution (c : Client) : ℚ :=
  match c.deposit with
  | some d => d.amount * configuredRate d.type
  | none => 0

/-- The status line "Client not found.". -/
def clientNotFound : List Out := [.str "Client not found.", .endl]

/-- The record the specification asks of the listing for one client: its id, its name and
the deposit amount, or "No deposit" when none is attached, on a line of its own. -/
def clientRecord (c : Client) : List Out :=
  [.str "Client ID: ", .int c.id, .str ", Name: ", .str c.name, .str ", Deposit: ",
    (match c.deposit with
     | some d => .dbl d.amount
     | none => .str "No deposit"),
    .endl]

/-- The deposit invariant of the specification: every attached deposit has amount >= 0. -/
def Bank.DepositsNonneg (b : Bank) : Prop :=
  ∀ c ∈ b.clients, ∀ d, c.deposit = some d → 0 ≤ d.amount

/-- Whether the operation is one of addClient, attach deposit and depositToClient. -/
def Op.isUpdate : Op → Bool
  | .addClient _ _ => true
  | .addDeposit _ _ _ => true
  | .depositToClient _ _ => true
  | _ => false

/-! ## The rate table -/

theorem InterestRates.new_rates :
    InterestRates.new = { rates := [(.Savings, 3 / 100), (.Fixed, 5 / 100)] } := by
  simp [InterestRates.new, RateMap.assign, RateMap.touch, RateMap.write, DepositType.toNat]
  norm_num

theorem configuredRate_eq (c : DepositType) :
    configuredRate c = match c with | .Savings => 3 / 100 | .Fixed => 5 / 100 := by
  cases c <;> simp [configuredRate] <;> norm_num

theorem InterestRates.getRate_new (c : DepositType) :
    InterestRates.new.getRate c = (configuredRate c, InterestRates.new) := by
  rw [InterestRates.new_rates, configuredRate_eq]
  cases c <;>
    simp [InterestRates.getRate, RateMap.index, RateMap.touch, RateMap.read, DepositType.toNat]

theorem InterestRates.callGetRate_none (c : DepositType) :
    InterestRates.callGetRate c none = (configuredRate c, some InterestRates.new) := by
  simp [InterestRates.callGetRate, InterestRates.Instance, InterestRates.getRate_new]

theorem InterestRates.callGetRate_some_new (c : DepositType) :
    InterestRates.callGetRate c (some InterestRates.new)
      = (configuredRate c, some InterestRates.new) := by
  simp [InterestRates.callGetRate, InterestRates.Instance, InterestRates.getRate_new]

theorem InterestRates.callsGetRate_some_new (cs : List DepositType) :
    InterestRates.callsGetRate cs (some InterestRates.new)
      = (cs.map configuredRate, some InterestRates.new) := by
  induction cs with
  | nil => rfl
  | cons c cs ih => simp [InterestRates.callsGetRate, InterestRates.callGetRate_some_new, ih]

theorem InterestRates.callsGetRate_none (cs : List DepositType) :
    InterestRates.callsGetRate cs none
      = (cs.map configuredRate, if cs = [] then none else some InterestRates.new) := by
  cases cs with
  | nil => rfl
  | cons c cs =>
    simp [InterestRates.callsGetRate, InterestRates.callGetRate_none,
      InterestRates.callsGetRate_some_new]

theorem InterestRates.after_cases (calls : List DepositType) :
    InterestRates.after calls = none ∨ InterestRates.after calls = some InterestRates.new := by
  unfold InterestRates.after InterestRates.instance₀
  rw [InterestRates.callsGetRate_none]
  by_cases h : calls = [] <;> simp [h]

theorem InterestRates.callGetRate_after (c : DepositType) (calls : List DepositType) :
    InterestRates.callGetRate c (InterestRates.after calls)
      = (configuredRate c, some InterestRates.new) := by
  rcases InterestRates.after_cases calls with h | h <;> rw [h]
  · exact InterestRates.callGetRate_none c
  · exact InterestRates.callGetRate_some_new c

/-! ## Lookup by id -/

theorem Bank.findLoop_shift (cs : List Client) (clientId : Int) (k : Nat) :
    Bank.findLoop cs clientId k = (Bank.findLoop cs clientId 0).map (· + k) := by
  induction cs generalizing k with
  | nil => rfl
  | cons c cs ih =>
    unfold Bank.findLoop
    by_cases h : c.getId = clientId
    · simp [h]
    · simp only [h, if_false]
      rw [ih (k + 1), ih (0 + 1)]
      cases Bank.findLoop cs clientId 0 <;> simp [Nat.add_comm, Nat.add_left_comm]

theorem Bank.findLoop_cons (c : Client) (cs : List Client) (clientId : Int) :
    Bank.findLoop (c :: cs) clientId 0
      = if c.getId = clientId then some 0 else (Bank.findLoop cs clientId 0).map (· + 1) := by
  conv_lhs => unfold Bank.findLoop
  rw [Bank.findLoop_shift cs clientId (0 + 1)]

theorem Bank.findLoop_eq_none_iff (cs : List Client) (clientId : Int) :
    Bank.findLoop cs clientId 0 = none ↔ ∀ c ∈ cs, c.getId ≠ clientId := by
  induction cs with
  | nil => simp [Bank.findLoop]
  | cons c cs ih =>
    rw [Bank.findLoop_cons]
    by_cases h : c.getId = clientId
    · simp [h]
    · simp [h, ih]

theorem Bank.findLoop_eq_some_iff (cs : List Client) (clientId : Int) (p : Nat) :
    Bank.findLoop cs clientId 0 = some p ↔
      (∃ c, cs[p]? = some c ∧ c.getId = clientId) ∧
        ∀ j, j < p → ∀ c, cs[j]? = some c → c.getId ≠ clientId := by
  induction cs generalizing p with
  | nil => simp [Bank.findLoop]
  | cons c cs ih =>
    rw [Bank.findLoop_cons]
    by_cases h : c.getId = clientId
    · simp only [h, if_true]
      constructor
      · intro hp
        cases hp
        exact ⟨⟨c, by simp, h⟩, fun j hj => absurd hj (Nat.not_lt_zero j)⟩
      · rintro ⟨_, hmin⟩
        cases p with
        | zero => rfl
        | succ q => exact absurd h (hmin 0 (Nat.succ_pos q) c (by simp))
    · simp only [h, if_false]
      cases p with
      | zero =>
        constructor
        · intro hp
          cases hfind : Bank.findLoop cs clientId 0 <;> simp [hfind] at hp
        · rintro ⟨⟨c', hc', hid⟩, _⟩
          simp at hc'
          exact absurd (hc' ▸ hid) h
      | succ q =>
        have hq := ih q
        constructor
        · intro hp
          have hfind : Bank.findLoop cs clientId 0 = some q := by
            cases hf : Bank.findLoop cs clientId 0 <;> simp [hf] at hp
            exact congrArg some hp
          obtain ⟨hex, hmin⟩ := hq.mp hfind
          refine ⟨by simpa using hex, ?_⟩
          intro j hj c' hc'
          cases j with
          | zero =>
            simp at hc'
            exact hc' ▸ h
          | succ i => exact hmin i (Nat.lt_of_succ_lt_succ hj) c' (by simpa using hc')
        · rintro ⟨hex, hmin⟩
          have hfind : Bank.findLoop cs clientId 0 = some q :=
            hq.mpr ⟨by simpa using hex, fun j hj c' hc' =>
              hmin (j + 1) (Nat.succ_lt_succ hj) c' (by simpa using hc')⟩
          simp [hfind]

/-! ## Member calls through a client pointer -/

theorem Bank.atClient_eq_self_iff (f : Client → Client) (cs : List Client) (p : Nat) :
    Bank.atClient f cs p = cs ↔ ∀ c, cs[p]? = some c → f c = c := by
  induction cs generalizing p with
  | nil => simp [Bank.atClient]
  | cons c cs ih =>
    cases p with
    | zero => simp [Bank.atClient]
    | succ q => simp [Bank.atClient, ih q]

theorem Client.depositAmount_of_no_deposit (c : Client) (amt : ℚ) (h : c.deposit = none) :
    c.depositAmount amt = c := by
  obtain ⟨id, name, dep⟩ := c
  simp only at h
  subst h
  rfl

theorem Bank.atClient_eq_set (f : Client → Client) (cs : List Client) (p : Nat) (c : Client)
    (hc : cs[p]? = some c) : Bank.atClient f cs p = cs.set p (f c) := by
  induction cs generalizing p with
  | nil => simp at hc
  | cons e es ih =>
    cases p with
    | zero =>
      simp at hc
      simp [Bank.atClient, hc]
    | succ q =>
      simp at hc
      simp [Bank.atClient, ih q hc]

/-! ## `depositToClient`: the three outcomes -/

theorem Bank.depositToClient_empty (b : Bank) (clientId : Int) (amt : ℚ)
    (h : b.hasClients.1 = false) :
    b.depositToClient clientId amt = (noExistingClient, b) := by
  simp only [Bank.hasClients] at h
  simp [Bank.depositToClient, Bank.hasClients, noExistingClient, h]

theorem Bank.depositToClient_invalid (b : Bank) (clientId : Int) (amt : ℚ)
    (h : b.hasClients.1 = true) (hbad : (b.findClientById clientId).1 = none ∨ amt ≤ 0) :
    b.depositToClient clientId amt = (invalidClientOrAmount, b) := by
  simp only [Bank.hasClients] at h
  simp only [Bank.findClientById] at hbad
  cases hfind : Bank.findLoop b.clients clientId 0 with
  | none =>
    simp [Bank.depositToClient, Bank.hasClients, Bank.findClientById, invalidClientOrAmount,
      h, hfind]
  | some p =>
    have hamt : ¬ 0 < amt := by
      rcases hbad with hn | hle
      · simp [hfind] at hn
      · exact not_lt.mpr hle
    simp [Bank.depositToClient, Bank.hasClients, Bank.findClientById, invalidClientOrAmount,
      h, hfind, hamt]

theorem Bank.depositToClient_found (b : Bank) (clientId : Int) (amt : ℚ) (p : Nat)
    (hfind : (b.findClientById clientId).1 = some p) (hamt : 0 < amt) :
    b.depositToClient clientId amt
      = (depositAdded clientId,
          { clients := Bank.atClient (fun c => c.depositAmount amt) b.clients p }) := by
  simp only [Bank.findClientById] at hfind
  have hne : b.clients ≠ [] := by
    intro hnil
    simp [hnil, Bank.findLoop] at hfind
  simp [Bank.depositToClient, Bank.hasClients, Bank.findClientById, depositAdded,
    hne, hfind, hamt]

theorem Bank.hasClients_of_found (b : Bank) (clientId : Int) (p : Nat)
    (hfind : (b.findClientById clientId).1 = some p) : b.hasClients.1 = true := by
  simp only [Bank.findClientById] at hfind
  cases hc : b.clients with
  | nil => simp [hc, Bank.findLoop] at hfind
  | cons c cs => simp [Bank.hasClients, hc]

/-- C3: `findClientById` returns the client at the smallest position whose id is the one
asked for (so the first inserted among clients sharing an id); it returns `nullptr` exactly
when no client of the registry has that id; and it leaves the registry as it was. -/
theorem findClientById_first_match (b : Bank) (clientId : Int) :
    (∀ p, (b.findClientById clientId).1 = some p ↔
      (∃ c, b.clients[p]? = some c ∧ c.getId = clientId) ∧
        ∀ j, j < p → ∀ c, b.clients[j]? = some c → c.getId ≠ clientId) ∧
    ((b.findClientById clientId).1 = none ↔ ∀ c ∈ b.clients, c.getId ≠ clientId) ∧
    (b.findClientById clientId).2 = b :=
  ⟨fun p => Bank.findLoop_eq_some_iff b.clients clientId p,
    Bank.findLoop_eq_none_iff b.clients clientId, rfl⟩

/-- C1 (as stated, refuted): on the registry holding the single client (1, "Alice") without
a deposit, the registry is non-empty, id 1 is found and 50 > 0, yet `depositToClient(1, 50)`
leaves the state as it was, so "changes the state iff non-empty, found and amount > 0"
fails there. -/
theorem depositToClient_changes_iff_refuted :
    ¬ ((((Bank.mk [Client.new 1 "Alice"]).depositToClient 1 50).2 ≠ Bank.mk [Client.new 1 "Alice"]) ↔
        ((Bank.mk [Client.new 1 "Alice"]).hasClients.1 = true ∧
          ((Bank.mk [Client.new 1 "Alice"]).findClientById 1).1 ≠ none ∧ (50 : ℚ) > 0)) := by
  decide

/-- C1 (amended): `depositToClient(id, amount)` changes the registry state only if the
registry is non-empty, `findClientById(id)` finds a client, that client has a deposit
attached, and amount > 0; when these hold, the state after the call is the state before
with that client's deposit amount replaced by old amount + amount; and whenever the registry
is empty, or no client has the id, or amount <= 0, the state after the call equals the state
before and a failure status is reported. -/
theorem depositToClient_changes_only_if (b : Bank) (clientId : Int) (amt : ℚ) :
    ((b.depositToClient clientId amt).2 ≠ b →
      b.hasClients.1 = true ∧
        (∃ (p : Nat) (c : Client), (b.findClientById clientId).1 = some p ∧
          b.clients[p]? = some c ∧ c.deposit ≠ none) ∧
        amt > 0) ∧
    (∀ (p : Nat) (c : Client) (d : Deposit),
      (b.findClientById clientId).1 = some p → b.clients[p]? = some c →
      c.deposit = some d → amt > 0 →
      (b.depositToClient clientId amt).2.clients
        = b.clients.set p
            { id := c.id, name := c.name,
              deposit := some { amount := d.amount + amt, type := d.type } }) ∧
    (b.hasClients.1 = false ∨ (b.findClientById clientId).1 = none ∨ amt ≤ 0 →
      (b.depositToClient clientId amt).2 = b ∧ IsFailure (b.depositToClient clientId amt).1) := by
  have hfail : b.hasClients.1 = false ∨ (b.findClientById clientId).1 = none ∨ amt ≤ 0 →
      (b.depositToClient clientId amt).2 = b ∧
        IsFailure (b.depositToClient clientId amt).1 := by
    intro h
    cases hhas : b.hasClients.1 with
    | false =>
      rw [Bank.depositToClient_empty b clientId amt hhas]
      exact ⟨rfl, Or.inl rfl⟩
    | true =>
      have hbad : (b.findClientById clientId).1 = none ∨ amt ≤ 0 := by
        rcases h with h | h
        · rw [hhas] at h
          cases h
        · exact h
      rw [Bank.depositToClient_invalid b clientId amt hhas hbad]
      exact ⟨rfl, Or.inr rfl⟩
  refine ⟨fun hchg => ?_, ?_, hfail⟩
  · by_cases hhas : b.hasClients.1 = false
    · exact absurd (hfail (Or.inl hhas)).1 hchg
    · cases hfind : (b.findClientById clientId).1 with
      | none => exact absurd (hfail (Or.inr (Or.inl hfind))).1 hchg
      | some p =>
        by_cases hamt : 0 < amt
        · rw [Bank.depositToClient_found b clientId amt p hfind hamt] at hchg
          have hne : Bank.atClient (fun c => c.depositAmount amt) b.clients p ≠ b.clients := by
            intro heq
            apply hchg
            simp [heq]
          rw [Ne, Bank.atClient_eq_self_iff] at hne
          push_neg at hne
          obtain ⟨c, hc, hcne⟩ := hne
          refine ⟨by simpa using hhas, ⟨p, c, rfl, hc, ?_⟩, hamt⟩
          intro hnone
          exact hcne (Client.depositAmount_of_no_deposit c amt hnone)
        · exact absurd (hfail (Or.inr (Or.inr (not_lt.mp hamt)))).1 hchg
  · intro p c d hfind hc hd hamt
    rw [Bank.depositToClient_found b clientId amt p hfind hamt]
    simp only
    rw [Bank.atClient_eq_set _ b.clients p c hc]
    obtain ⟨id, name, dep⟩ := c
    simp only at hd
    subst hd
    rfl

/-- C2: `depositToClient(id, amount)` reports exactly one of three pairwise different
statuses; on an empty registry it reports "No existing client." and the state is unchanged;
on a non-empty registry where no client has the id or amount <= 0 it reports
"Invalid client ID or amount." and every client and deposit is unchanged; and it reports
"Deposit added to client ID <id>" only when the registry is non-empty, the id is found and
amount > 0. -/
theorem depositToClient_status (b : Bank) (clientId : Int) (amt : ℚ) :
    ((b.depositToClient clientId amt).1 = noExistingClient ∨
      (b.depositToClient clientId amt).1 = invalidClientOrAmount ∨
      (b.depositToClient clientId amt).1 = depositAdded clientId) ∧
    (noExistingClient ≠ invalidClientOrAmount ∧ noExistingClient ≠ depositAdded clientId ∧
      invalidClientOrAmount ≠ depositAdded clientId) ∧
    (b.hasClients.1 = false →
      b.depositToClient clientId amt = (noExistingClient, b)) ∧
    (b.hasClients.1 = true → ((b.findClientById clientId).1 = none ∨ amt ≤ 0) →
      b.depositToClient clientId amt = (invalidClientOrAmount, b)) ∧
    ((b.depositToClient clientId amt).1 = depositAdded clientId →
      b.hasClients.1 = true ∧ (b.findClientById clientId).1 ≠ none ∧ amt > 0) := by
  have hdist : noExistingClient ≠ invalidClientOrAmount ∧
      noExistingClient ≠ depositAdded clientId ∧
      invalidClientOrAmount ≠ depositAdded clientId := by
    simp [noExistingClient, invalidClientOrAmount, depositAdded]
  refine ⟨?_, hdist, Bank.depositToClient_empty b clientId amt,
    Bank.depositToClient_invalid b clientId amt, ?_⟩
  · cases hhas : b.hasClients.1 with
    | false => exact Or.inl (by rw [Bank.depositToClient_empty b clientId amt hhas])
    | true =>
      cases hfind : (b.findClientById clientId).1 with
      | none =>
        exact Or.inr (Or.inl (by
          rw [Bank.depositToClient_invalid b clientId amt hhas (Or.inl hfind)]))
      | some p =>
        by_cases hamt : 0 < amt
        · exact Or.inr (Or.inr (by rw [Bank.depositToClient_found b clientId amt p hfind hamt]))
        · exact Or.inr (Or.inl (by
            rw [Bank.depositToClient_invalid b clientId amt hhas (Or.inr (not_lt.mp hamt))]))
  · intro hout
    cases hhas : b.hasClients.1 with
    | false =>
      rw [Bank.depositToClient_empty b clientId amt hhas] at hout
      exact absurd hout hdist.2.1
    | true =>
      by_cases hbad : (b.findClientById clientId).1 = none ∨ amt ≤ 0
      · rw [Bank.depositToClient_invalid b clientId amt hhas hbad] at hout
        exact absurd hout hdist.2.2
      · push_neg at hbad
        exact ⟨rfl, hbad.1, hbad.2⟩

/-! ## Interest -/

theorem zero_literal : (0.0 : ℚ) = 0 := by norm_num

theorem Deposit.depositInterest_of (d : Deposit) (inst : InstancePtr)
    (h : inst = none ∨ inst = some InterestRates.new) :
    d.getInterest inst = (d.amount * configuredRate d.type, d, some InterestRates.new) := by
  rcases h with h | h <;>
    simp [h, Deposit.getInterest, InterestRates.callGetRate_none,
      InterestRates.callGetRate_some_new]

theorem Client.clientInterest_of (c : Client) (inst : InstancePtr)
    (h : inst = none ∨ inst = some InterestRates.new) :
    ∃ inst', (inst' = none ∨ inst' = some InterestRates.new) ∧
      c.getInterest inst = (contribution c, c, inst') := by
  obtain ⟨id, name, dep⟩ := c
  cases dep with
  | none => exact ⟨inst, h, by simp [Client.getInterest, contribution, zero_literal]⟩
  | some d =>
    exact ⟨some InterestRates.new, Or.inr rfl, by
      simp [Client.getInterest, contribution, Deposit.depositInterest_of d inst h]⟩

theorem Bank.interestLoop_of (cs : List Client) (total : ℚ) (inst : InstancePtr)
    (h : inst = none ∨ inst = some InterestRates.new) :
    ∃ inst', (inst' = none ∨ inst' = some InterestRates.new) ∧
      Bank.interestLoop cs total inst
        = (cs.foldl (fun t c => t + contribution c) total, cs, inst') := by
  induction cs generalizing total inst with
  | nil => exact ⟨inst, h, rfl⟩
  | cons c cs ih =>
    obtain ⟨inst1, h1, hc⟩ := Client.clientInterest_of c inst h
    obtain ⟨inst2, h2, hcs⟩ := ih (total + contribution c) inst1 h1
    exact ⟨inst2, h2, by simp [Bank.interestLoop, hc, hcs]⟩

theorem Bank.interestLoop_clients (cs : List Client) (total : ℚ) (inst : InstancePtr) :
    (Bank.interestLoop cs total inst).2.1 = cs := by
  induction cs generalizing total inst with
  | nil => rfl
  | cons c cs ih =>
    obtain ⟨id, name, dep⟩ := c
    cases dep with
    | none => simp [Bank.interestLoop, Client.getInterest, ih]
    | some d => simp [Bank.interestLoop, Client.getInterest, Deposit.getInterest, ih]

/-- C4: `totalInterest()` returns 0 and reports "No existing client." on an empty registry;
on a non-empty one it reports nothing and returns the sum, accumulated in insertion order
from 0, of amount * rate(category) for each client with a deposit and 0 for each client
without one; for two clients holding (100, Savings) and (200, Fixed) that is
100*0.03 + 200*0.05 = 13. -/
theorem totalInterest_sum (b : Bank) (calls : List DepositType) :
    (b.clients = [] →
      (b.totalInterest (InterestRates.after calls)).1 = 0 ∧
        (b.totalInterest (InterestRates.after calls)).2.1 = noExistingClient) ∧
    (b.clients ≠ [] →
      (b.totalInterest (InterestRates.after calls)).1
          = b.clients.foldl (fun total c => total + contribution c) 0 ∧
        (b.totalInterest (InterestRates.after calls)).2.1 = []) ∧
    (∀ (i j : Int) (n m : String),
      ((Bank.mk [⟨i, n, some ⟨100, .Savings⟩⟩, ⟨j, m, some ⟨200, .Fixed⟩⟩]).totalInterest
          (InterestRates.after calls)).1 = 100 * 0.03 + 200 * 0.05 ∧
        (100 * 0.03 + 200 * 0.05 : ℚ) = 13.0) := by
  have hnon : ∀ b : Bank, b.clients ≠ [] →
      (b.totalInterest (InterestRates.after calls)).1
          = b.clients.foldl (fun total c => total + contribution c) 0 ∧
        (b.totalInterest (InterestRates.after calls)).2.1 = [] := by
    intro b hne
    obtain ⟨inst', _, hloop⟩ :=
      Bank.interestLoop_of b.clients 0 (InterestRates.after calls)
        (InterestRates.after_cases calls)
    simp [Bank.totalInterest, Bank.hasClients, hne, hloop]
  refine ⟨?_, hnon b, ?_⟩
  · intro hnil
    simp [Bank.totalInterest, Bank.hasClients, hnil, noExistingClient, zero_literal]
  · intro i j n m
    rw [(hnon _ (by simp)).1]
    simp [contribution, configuredRate]
    norm_num

/-- C7: for every amount (in particular every non-negative one) and every category c, a
`Deposit` constructed with (amount, c) has `getInterest()` equal to amount times the value
`getRate(c)` returns, which is amount * 0.03 for Savings and amount * 0.05 for Fixed, and the
call leaves the deposit, so its amount, as it was. -/
theorem getInterest_eq_amount_mul_rate (amount : ℚ) (c : DepositType)
    (calls : List DepositType) :
    ((Deposit.mk amount c).getInterest (InterestRates.after calls)).1
        = amount * (InterestRates.callGetRate c (InterestRates.after calls)).1 ∧
    ((Deposit.mk amount c).getInterest (InterestRates.after calls)).1
        = (match c with
           | .Savings => amount * 0.03
           | .Fixed => amount * 0.05) ∧
    ((Deposit.mk amount c).getInterest (InterestRates.after calls)).2.1.getAmount = amount ∧
    ((Deposit.mk amount c).getInterest (InterestRates.after calls)).2.1 = Deposit.mk amount c := by
  rw [Deposit.depositInterest_of _ _ (InterestRates.after_cases calls),
    InterestRates.callGetRate_after]
  refine ⟨rfl, ?_, rfl, rfl⟩
  cases c <;> rfl

/-- C8: for every `Deposit` with initial amount a and category t and every x and y, after
`addAmount(x)` followed by `addAmount(y)`, `getAmount()` is a + x + y and the category is
still t. -/
theorem addAmount_additive (a x y : ℚ) (t : DepositType) :
    (((Deposit.mk a t).addAmount x).addAmount y).getAmount = a + x + y ∧
    (((Deposit.mk a t).addAmount x).addAmount y).type = t :=
  ⟨rfl, rfl⟩

/-- C6: in every state of the singleton the program can reach, `getRate(c)` returns the
configured default, 0.03 for Savings and 0.05 for Fixed; any further sequence of `getRate`
calls, in any order over the categories, returns for each call the default of its category;
the table holds exactly the two configured entries and a call leaves it as it was, also
after any such sequence. -/
theorem getRate_configured_and_stable (c : DepositType) (before calls : List DepositType) :
    (InterestRates.callGetRate c (InterestRates.after before)).1
        = (match c with
           | .Savings => 0.03
           | .Fixed => 0.05) ∧
    (InterestRates.callsGetRate calls (InterestRates.after before)).1
        = calls.map configuredRate ∧
    (InterestRates.Instance (InterestRates.after before)).1.rates
        = [(.Savings, 0.03), (.Fixed, 0.05)] ∧
    ((InterestRates.Instance (InterestRates.after before)).1.getRate c).2
        = (InterestRates.Instance (InterestRates.after before)).1 ∧
    (InterestRates.callsGetRate calls
        (some (InterestRates.Instance (InterestRates.after before)).1)).2
        = some (InterestRates.Instance (InterestRates.after before)).1 := by
  have hinst : (InterestRates.Instance (InterestRates.after before)).1 = InterestRates.new := by
    rcases InterestRates.after_cases before with h | h <;> rw [h] <;> rfl
  rw [hinst, InterestRates.callGetRate_after, InterestRates.getRate_new,
    InterestRates.callsGetRate_some_new]
  refine ⟨by cases c <;> rfl, ?_, ?_, rfl, rfl⟩
  · rcases InterestRates.after_cases before with h | h <;> rw [h]
    · rw [InterestRates.callsGetRate_none]
    · rw [InterestRates.callsGetRate_some_new]
  · rw [InterestRates.new_rates]
    norm_num

/-! ## Adding clients and the emptiness of the registry -/

theorem Bank.atClient_length (f : Client → Client) (cs : List Client) (p : Nat) :
    (Bank.atClient f cs p).length = cs.length := by
  induction cs generalizing p with
  | nil => rfl
  | cons c cs ih =>
    cases p with
    | zero => rfl
    | succ q => simp [Bank.atClient, ih q]

theorem Bank.depositToClient_length (b : Bank) (clientId : Int) (amt : ℚ) :
    (b.depositToClient clientId amt).2.clients.length = b.clients.length := by
  cases hhas : b.hasClients.1 with
  | false => rw [Bank.depositToClient_empty b clientId amt hhas]
  | true =>
    by_cases hbad : (b.findClientById clientId).1 = none ∨ amt ≤ 0
    · rw [Bank.depositToClient_invalid b clientId amt hhas hbad]
    · push_neg at hbad
      obtain ⟨p, hp⟩ := Option.ne_none_iff_exists'.mp hbad.1
      rw [Bank.depositToClient_found b clientId amt p hp hbad.2]
      exact Bank.atClient_length _ _ _

theorem menuAddDeposit_length (b : Bank) (clientId : Int) (amount : ℚ) (t : DepositType) :
    (menuAddDeposit b clientId amount t).2.clients.length = b.clients.length := by
  unfold menuAddDeposit
  cases hfind : (b.findClientById clientId).1 with
  | none => simp [Bank.findClientById] at hfind ⊢; simp [hfind]
  | some p =>
    simp [Bank.findClientById] at hfind ⊢
    simp [hfind, Bank.atClient_length]

theorem Op.step_length (op : Op) (w : World) :
    (op.step w).bank.clients.length
      = w.bank.clients.length + (if op.isAddClient then 1 else 0) := by
  cases op with
  | addClient id name => simp [Op.step, Op.isAddClient, menuAddClient, Bank.addClient]
  | findClientById clientId => simp [Op.step, Op.isAddClient, Bank.findClientById]
  | addDeposit clientId amount t =>
    simp [Op.step, Op.isAddClient, menuAddDeposit_length]
  | depositToClient clientId amt =>
    simp [Op.step, Op.isAddClient, Bank.depositToClient_length]
  | totalInterest =>
    by_cases hnil : w.bank.clients = []
    · simp [Op.step, Op.isAddClient, Bank.totalInterest, Bank.hasClients, hnil]
    · have hcl := Bank.interestLoop_clients w.bank.clients 0 w.inst
      simp [Op.step, Op.isAddClient, Bank.totalInterest, Bank.hasClients, hnil, hcl]
  | listClients =>
    by_cases hnil : w.bank.clients = [] <;>
      simp [Op.step, Op.isAddClient, Bank.listClients, Bank.hasClients, hnil]

theorem run_length (ops : List Op) (w : World) :
    (run ops w).bank.clients.length
      = w.bank.clients.length + ops.countP Op.isAddClient := by
  induction ops generalizing w with
  | nil => simp [run]
  | cons op ops ih =>
    rw [run, ih, Op.step_length, List.countP_cons]
    omega

theorem Bank.hasClients_eq (b : Bank) : b.hasClients.1 = decide (0 < b.clients.length) := by
  cases h : b.clients <;> simp [Bank.hasClients, h]

/-- C9: a freshly constructed `Bank` is empty; after any `addClient` call `hasClients()` is
true; no registry operation (addClient, findClientById, attach deposit, depositToClient,
totalInterest, listClients) turns a non-empty registry into an empty one; and after any
sequence of these operations from the start state the registry is empty if and only if the
sequence contains no addClient. -/
theorem emptiness_monotone :
    Bank.new.hasClients.1 = false ∧
    (∀ (b : Bank) (c : Client), (b.addClient c).hasClients.1 = true) ∧
    (∀ (op : Op) (w : World),
      w.bank.hasClients.1 = true → (op.step w).bank.hasClients.1 = true) ∧
    (∀ ops : List Op,
      (run ops World.init).bank.hasClients.1 = false ↔ ∀ op ∈ ops, op.isAddClient = false) := by
  refine ⟨rfl, ?_, ?_, ?_⟩
  · intro b c
    simp [Bank.hasClients_eq, Bank.addClient]
  · intro op w h
    rw [Bank.hasClients_eq] at h ⊢
    rw [Op.step_length]
    simp only [decide_eq_true_eq] at h ⊢
    omega
  · intro ops
    rw [Bank.hasClients_eq, run_length]
    simp [World.init, Bank.new, List.countP_eq_zero]

/-- C10: for every registry, id and name, adding a client built by `Client(id, name)` yields
the old client sequence, unchanged and in the same order, followed by exactly one new
client with that id, that name and no deposit; a client already present with the same id
does not prevent it. -/
theorem addClient_appends (b : Bank) (id : Int) (name : String) :
    (b.addClient (Client.new id name)).clients
        = b.clients ++ [{ id := id, name := name, deposit := none }] ∧
    (b.addClient (Client.new id name)).clients.length = b.clients.length + 1 ∧
    (∀ i, i < b.clients.length →
      (b.addClient (Client.new id name)).clients[i]? = b.clients[i]?) ∧
    (∃ c, (b.addClient (Client.new id name)).clients[b.clients.length]? = some c ∧
      c.getId = id ∧ c.name = name ∧ c.deposit = none) ∧
    ((∃ c ∈ b.clients, c.getId = id) →
      (b.addClient (Client.new id name)).clients
        = b.clients ++ [{ id := id, name := name, deposit := none }]) ∧
    (menuAddClient b id name).2 = b.addClient (Client.new id name) := by
  refine ⟨rfl, by simp [Bank.addClient], ?_, ?_, fun _ => rfl, rfl⟩
  · intro i hi
    simp [Bank.addClient, List.getElem?_append_left hi]
  · exact ⟨Client.new id name, by simp [Bank.addClient], rfl, rfl, rfl⟩

/-! ## The add, attach, replenish scenario -/

/-- C5: starting from the empty registry, for every id, name, initial amount a, category c
and replenish amount d > 0: after addClient(id, name), attaching Deposit(a, c) to the client
found by id and depositToClient(id, d), the client found by id is the one added, it holds a
deposit of amount a + d and category c, and its interest is (a + d) * rate(c). -/
theorem add_attach_replenish (id : Int) (name : String) (a : ℚ) (c : DepositType) (d : ℚ)
    (calls : List DepositType) (hd : 0 < d) :
    ((run [.addClient id name, .addDeposit id a c, .depositToClient id d]
        World.init).bank.findClientById id).1 = some 0 ∧
    (run [.addClient id name, .addDeposit id a c, .depositToClient id d]
        World.init).bank.clients[0]?
      = some { id := id, name := name, deposit := some { amount := a + d, type := c } } ∧
    (Deposit.mk (a + d) c).getAmount = a + d ∧
    ((Client.mk id name (some { amount := a + d, type := c })).getInterest
        (InterestRates.after calls)).1 = (a + d) * configuredRate c := by
  have hbank : (run [.addClient id name, .addDeposit id a c, .depositToClient id d]
      World.init).bank = { clients := [{ id := id, name := name, deposit := some ⟨a + d, c⟩ }] } := by
    simp [run, Op.step, World.init, Bank.new, menuAddClient, Bank.addClient, Client.new,
      menuAddDeposit, Bank.findClientById, Bank.findLoop, Client.getId, Bank.atClient,
      Client.addDeposit, Bank.depositToClient, Bank.hasClients, hd, Client.depositAmount,
      Deposit.addAmount]
  rw [hbank]
  refine ⟨?_, rfl, rfl, ?_⟩
  · simp [Bank.findClientById, Bank.findLoop, Client.getId]
  · obtain ⟨inst', _, h⟩ := Client.clientInterest_of
      { id := id, name := name, deposit := some ⟨a + d, c⟩ } (InterestRates.after calls)
      (InterestRates.after_cases calls)
    rw [h]
    rfl

/-- C5 (instance): for (1, "Alice", 100, Savings) replenished by 50, the amount is 150 and
the interest is 4.5. -/
theorem add_attach_replenish_alice :
    (0 : ℚ) < 50 ∧
    ((run [.addClient 1 "Alice", .addDeposit 1 100 .Savings, .depositToClient 1 50]
        World.init).bank.findClientById 1).1 = some 0 ∧
    (run [.addClient 1 "Alice", .addDeposit 1 100 .Savings, .depositToClient 1 50]
        World.init).bank.clients[0]?
      = some { id := 1, name := "Alice", deposit := some { amount := 150, type := .Savings } } ∧
    (Deposit.mk 150 .Savings).getAmount = 150 ∧
    ((Client.mk 1 "Alice" (some { amount := 150, type := .Savings })).getInterest
        InterestRates.instance₀).1 = 4.5 := by
  have h := add_attach_replenish 1 "Alice" 100 .Savings 50 [] (by norm_num)
  have e : (100 : ℚ) + 50 = 150 := by norm_num
  have r : (150 : ℚ) * configuredRate .Savings = 4.5 := by
    simp [configuredRate]
    norm_num
  rw [e, r] at h
  exact ⟨by norm_num, h⟩

/-! ## Attaching and replenishing a deposit -/

theorem Bank.atClient_getElem_opt (f : Client → Client) (cs : List Client) (p j : Nat) :
    (Bank.atClient f cs p)[j]? = if j = p then (cs[j]?).map f else cs[j]? := by
  induction cs generalizing p j with
  | nil => simp [Bank.atClient]
  | cons c cs ih =>
    cases p with
    | zero =>
      cases j with
      | zero => simp [Bank.atClient]
      | succ i => simp [Bank.atClient]
    | succ q =>
      cases j with
      | zero => simp [Bank.atClient]
      | succ i => simp [Bank.atClient, ih q i]

/-- C11: for every client, with or without a deposit, and every deposit d, after
`addDeposit(d)` the client owns exactly d: the amount it reports is d's amount and its
interest is d.amount * rate(d.category), whatever deposit it held before (the prior balance
is discarded, not merged), and its id and name are unchanged. -/
theorem addDeposit_replaces (c : Client) (d : Deposit) (calls : List DepositType) :
    (c.addDeposit d).deposit = some d ∧
    (c.addDeposit d).printClientInfo
        = [.str "Client ID: ", .int c.id, .str ", Name: ", .str c.name, .str ", Deposit: ",
            .dbl d.amount, .endl] ∧
    ((c.addDeposit d).getInterest (InterestRates.after calls)).1
        = d.amount * configuredRate d.type ∧
    (∀ prior : Option Deposit,
      ({ id := c.id, name := c.name, deposit := prior } : Client).addDeposit d
        = c.addDeposit d) ∧
    (c.addDeposit d).getId = c.getId ∧
    (c.addDeposit d).name = c.name := by
  refine ⟨rfl, rfl, ?_, fun _ => rfl, rfl, rfl⟩
  obtain ⟨inst', _, h⟩ :=
    Client.clientInterest_of (c.addDeposit d) (InterestRates.after calls)
      (InterestRates.after_cases calls)
  rw [h]
  rfl

/-- C12: the attach-deposit operation, for every registry, id, amount and category: if no
client has the id it reports "Client not found." and leaves the registry unchanged;
otherwise it attaches Deposit(amount, category) to the first client whose id matches and
leaves every other client, and the order and number of clients, unchanged. -/
theorem menuAddDeposit_effect (b : Bank) (clientId : Int) (amount : ℚ) (t : DepositType) :
    ((∀ c ∈ b.clients, c.getId ≠ clientId) →
      menuAddDeposit b clientId amount t = (clientNotFound, b)) ∧
    (∀ (p : Nat) (c : Client), b.clients[p]? = some c → c.getId = clientId →
      (∀ j, j < p → ∀ e : Client, b.clients[j]? = some e → e.getId ≠ clientId) →
      (menuAddDeposit b clientId amount t).1 = depositAdded clientId ∧
      (menuAddDeposit b clientId amount t).2.clients.length = b.clients.length ∧
      (menuAddDeposit b clientId amount t).2.clients[p]?
        = some (c.addDeposit { amount := amount, type := t }) ∧
      ∀ j, j ≠ p → (menuAddDeposit b clientId amount t).2.clients[j]? = b.clients[j]?) := by
  constructor
  · intro hnone
    have hfind := (Bank.findLoop_eq_none_iff b.clients clientId).mpr hnone
    simp [menuAddDeposit, Bank.findClientById, hfind, clientNotFound]
  · intro p c hc hid hmin
    have hp : Bank.findLoop b.clients clientId 0 = some p :=
      (Bank.findLoop_eq_some_iff b.clients clientId p).mpr ⟨⟨c, hc, hid⟩, hmin⟩
    have hres : menuAddDeposit b clientId amount t
        = (depositAdded clientId,
            { clients := Bank.atClient
                (fun c => c.addDeposit { amount := amount, type := t }) b.clients p }) := by
      simp [menuAddDeposit, Bank.findClientById, hp, depositAdded]
    rw [hres]
    refine ⟨rfl, Bank.atClient_length _ _ _, ?_, ?_⟩
    · simp [Bank.atClient_getElem_opt, hc]
    · intro j hj
      simp [Bank.atClient_getElem_opt, hj]

/-- C13: for every client and every delta, `depositAmount(delta)` leaves the client entirely
unchanged when no deposit is attached (it stays without a deposit), and otherwise changes
only the deposit's amount, to old amount + delta, keeping the category, id and name. -/
theorem depositAmount_effect (c : Client) (delta : ℚ) :
    (c.deposit = none →
      c.depositAmount delta = c ∧ (c.depositAmount delta).deposit = none) ∧
    (∀ d, c.deposit = some d →
      c.depositAmount delta
        = { id := c.id, name := c.name,
            deposit := some { amount := d.amount + delta, type := d.type } }) := by
  obtain ⟨id, name, dep⟩ := c
  constructor
  · intro h
    simp only at h
    subst h
    exact ⟨rfl, rfl⟩
  · intro d h
    simp only at h
    subst h
    rfl

/-! ## Listing -/

theorem Client.printClientInfo_eq_record (c : Client) : c.printClientInfo = clientRecord c := by
  obtain ⟨id, name, dep⟩ := c
  cases dep <;> rfl

theorem count_endl_records (cs : List Client) :
    ((cs.map clientRecord).flatten.count Out.endl) = cs.length := by
  induction cs with
  | nil => rfl
  | cons c cs ih =>
    obtain ⟨id, name, dep⟩ := c
    cases dep <;> simp [clientRecord, List.count_cons, ih]

/-- C14: `listClients()` reports "No existing client." and nothing else when the registry is
empty; otherwise it produces exactly one record per client, in insertion order, each showing
the client's id, its name and either the deposit amount or "No deposit"; and listing does not
change the registry. -/
theorem listClients_records (b : Bank) :
    (b.clients = [] → b.listClients.1 = noExistingClient) ∧
    (b.clients ≠ [] →
      b.listClients.1 = (b.clients.map clientRecord).flatten ∧
      b.listClients.1.count Out.endl = b.clients.length) ∧
    b.listClients.2 = b := by
  refine ⟨?_, ?_, ?_⟩
  · intro h
    simp [Bank.listClients, Bank.hasClients, h, noExistingClient]
  · intro h
    have hout : b.listClients.1 = (b.clients.map clientRecord).flatten := by
      have hfun : Client.printClientInfo = clientRecord :=
        funext Client.printClientInfo_eq_record
      simp [Bank.listClients, Bank.hasClients, h, hfun]
    exact ⟨hout, by rw [hout, count_endl_records]⟩
  · by_cases h : b.clients = [] <;> simp [Bank.listClients, Bank.hasClients, h]

/-! ## The frame of `depositToClient` -/

theorem Bank.depositToClient_getElem_opt (b : Bank) (clientId : Int) (amt : ℚ) (j : Nat) :
    (b.depositToClient clientId amt).2.clients[j]?
      = if (b.findClientById clientId).1 = some j ∧ 0 < amt
        then (b.clients[j]?).map (fun c => c.depositAmount amt)
        else b.clients[j]? := by
  cases hhas : b.hasClients.1 with
  | false =>
    rw [Bank.depositToClient_empty b clientId amt hhas]
    have hnil : b.clients = [] := by
      simpa [Bank.hasClients] using hhas
    simp [hnil]
  | true =>
    by_cases hbad : (b.findClientById clientId).1 = none ∨ amt ≤ 0
    · rw [Bank.depositToClient_invalid b clientId amt hhas hbad]
      have hcond : ¬ ((b.findClientById clientId).1 = some j ∧ 0 < amt) := by
        rintro ⟨h1, h2⟩
        rcases hbad with h | h
        · rw [h1] at h
          cases h
        · exact absurd h2 (not_lt.mpr h)
      rw [if_neg hcond]
    · push_neg at hbad
      obtain ⟨p, hp⟩ := Option.ne_none_iff_exists'.mp hbad.1
      rw [Bank.depositToClient_found b clientId amt p hp hbad.2, hp]
      simp only [Bank.atClient_getElem_opt]
      by_cases hj : j = p
      · simp [hj, hbad.2]
      · have hne : ¬ (some p = some j) := fun h => hj (Option.some.inj h).symm
        simp [hj, hne]

theorem Client.depositAmount_fields (c : Client) (amt : ℚ) :
    (c.depositAmount amt).id = c.id ∧ (c.depositAmount amt).name = c.name ∧
    (c.depositAmount amt).deposit
      = c.deposit.map (fun d => { amount := d.amount + amt, type := d.type }) := by
  obtain ⟨id, name, dep⟩ := c
  cases dep <;> exact ⟨rfl, rfl, rfl⟩

/-- C16: for every registry, id and amount, `depositToClient` preserves the number and order
of clients and every client's id, name, deposit presence and deposit category; the only
value that can change is the deposit amount of the first client (lowest position) whose id
matches, which on a positive amount becomes old amount + amount; later clients sharing the
id and all other clients are left exactly as they were. -/
theorem depositToClient_frame (b : Bank) (clientId : Int) (amt : ℚ) :
    (b.depositToClient clientId amt).2.clients.length = b.clients.length ∧
    (∀ (j : Nat) (c : Client), b.clients[j]? = some c →
      ∃ c' : Client, (b.depositToClient clientId amt).2.clients[j]? = some c' ∧
        c'.id = c.id ∧ c'.name = c.name ∧
        c'.deposit.isSome = c.deposit.isSome ∧
        c'.deposit.map Deposit.type = c.deposit.map Deposit.type ∧
        c'.deposit.map Deposit.amount = c.deposit.map (fun d =>
          if (b.findClientById clientId).1 = some j ∧ 0 < amt
          then d.amount + amt else d.amount)) ∧
    (∀ (j : Nat) (c : Client), b.clients[j]? = some c →
      (c.getId ≠ clientId ∨
        ∃ (i : Nat) (e : Client), i < j ∧ b.clients[i]? = some e ∧ e.getId = clientId) →
      (b.depositToClient clientId amt).2.clients[j]? = some c) := by
  refine ⟨Bank.depositToClient_length b clientId amt, ?_, ?_⟩
  · intro j c hc
    rw [Bank.depositToClient_getElem_opt]
    by_cases hcond : (b.findClientById clientId).1 = some j ∧ 0 < amt
    · obtain ⟨h1, h2, h3⟩ := Client.depositAmount_fields c amt
      refine ⟨c.depositAmount amt, by simp [hcond, hc], h1, h2, ?_, ?_, ?_⟩
      · rw [h3]; cases c.deposit <;> rfl
      · rw [h3]; cases c.deposit <;> rfl
      · rw [h3]; cases c.deposit <;> simp [hcond]
    · refine ⟨c, by simp [hcond, hc], rfl, rfl, rfl, rfl, ?_⟩
      cases c.deposit <;> simp [hcond]
  · intro j c hc hother
    rw [Bank.depositToClient_getElem_opt]
    have hcond : ¬ ((b.findClientById clientId).1 = some j ∧ 0 < amt) := by
      rintro ⟨hfind, _⟩
      obtain ⟨⟨c0, hc0, hid0⟩, hmin⟩ :=
        (Bank.findLoop_eq_some_iff b.clients clientId j).mp hfind
      rw [hc] at hc0
      cases hc0
      rcases hother with hne | ⟨i, e, hi, he, hide⟩
      · exact hne hid0
      · exact hmin i hi e he hide
    rw [if_neg hcond, hc]

/-- C17: `depositToClient` never lowers a balance: for every registry, id and amount, each
client's deposit amount after the call is >= its amount before (amounts being exact
rationals); so if every attached deposit had amount >= 0 before the call, every attached
deposit has amount >= 0 after it. -/
theorem depositToClient_never_lowers (b : Bank) (clientId : Int) (amt : ℚ) :
    (∀ (j : Nat) (c : Client) (d : Deposit), b.clients[j]? = some c → c.deposit = some d →
      ∃ (c' : Client) (d' : Deposit),
        (b.depositToClient clientId amt).2.clients[j]? = some c' ∧
        c'.deposit = some d' ∧ d.amount ≤ d'.amount) ∧
    (b.DepositsNonneg → (b.depositToClient clientId amt).2.DepositsNonneg) := by
  have hget : ∀ (j : Nat) (c' : Client),
      (b.depositToClient clientId amt).2.clients[j]? = some c' →
      ∃ c : Client, b.clients[j]? = some c ∧
        (c' = c ∨ (0 < amt ∧ c' = c.depositAmount amt)) := by
    intro j c' hc'
    rw [Bank.depositToClient_getElem_opt] at hc'
    by_cases hcond : (b.findClientById clientId).1 = some j ∧ 0 < amt
    · rw [if_pos hcond] at hc'
      cases hc : b.clients[j]? with
      | none => simp [hc] at hc'
      | some c =>
        simp [hc] at hc'
        exact ⟨c, rfl, Or.inr ⟨hcond.2, hc'.symm⟩⟩
    · rw [if_neg hcond] at hc'
      exact ⟨c', hc', Or.inl rfl⟩
  constructor
  · intro j c d hc hd
    rw [Bank.depositToClient_getElem_opt]
    by_cases hcond : (b.findClientById clientId).1 = some j ∧ 0 < amt
    · refine ⟨c.depositAmount amt, { amount := d.amount + amt, type := d.type },
        by simp [hcond, hc], ?_, ?_⟩
      · rw [(Client.depositAmount_fields c amt).2.2, hd]; rfl
      · exact le_add_of_nonneg_right (le_of_lt hcond.2)
    · exact ⟨c, d, by simp [hcond, hc], hd, le_refl _⟩
  · intro hnn c' hmem d' hd'
    obtain ⟨j, hj⟩ := List.getElem?_of_mem hmem
    obtain ⟨c, hc, hcase⟩ := hget j c' hj
    have hcmem : c ∈ b.clients := List.getElem?_mem hc
    rcases hcase with heq | ⟨hpos, heq⟩
    · subst heq
      exact hnn c' hcmem d' hd'
    · subst heq
      rw [(Client.depositAmount_fields c amt).2.2] at hd'
      cases hdep : c.deposit with
      | none => simp [hdep] at hd'
      | some d =>
        simp [hdep] at hd'
        rw [← hd']
        exact add_nonneg (hnn c hcmem d hdep) (le_of_lt hpos)

/-- C15 (the code at the failing input): the sequence addClient(1, "Alice"), attach deposit
(1, -5, Savings) uses only addClient, attach deposit and depositToClient, and it reaches
from the empty registry a state whose attached deposit has amount -5, so "every attached
deposit has amount >= 0" fails there. -/
theorem negative_attach_reachable :
    [Op.addClient 1 "Alice", Op.addDeposit 1 (-5) .Savings].all Op.isUpdate = true ∧
    (run [Op.addClient 1 "Alice", Op.addDeposit 1 (-5) .Savings] World.init).bank.clients
      = [{ id := 1, name := "Alice", deposit := some { amount := -5, type := .Savings } }] ∧
    ¬ (run [Op.addClient 1 "Alice", Op.addDeposit 1 (-5) .Savings]
        World.init).bank.DepositsNonneg := by
  have hcl : (run [Op.addClient 1 "Alice", Op.addDeposit 1 (-5) .Savings]
      World.init).bank.clients
      = [{ id := 1, name := "Alice", deposit := some { amount := -5, type := .Savings } }] := by
    simp [run, Op.step, World.init, Bank.new, menuAddClient, Bank.addClient, Client.new,
      menuAddDeposit, Bank.findClientById, Bank.findLoop, Client.getId, Bank.atClient,
      Client.addDeposit]
  refine ⟨by decide, hcl, ?_⟩
  intro hnn
  have h := hnn _ (by rw [hcl]; exact List.mem_singleton.mpr rfl) _ rfl
  norm_num at h

/-! ## Lookup after an insertion -/

theorem Bank.findLoop_append (cs : List Client) (c : Client) (clientId : Int) :
    Bank.findLoop (cs ++ [c]) clientId 0
      = match Bank.findLoop cs clientId 0 with
        | some p => some p
        | none => if c.getId = clientId then some cs.length else none := by
  induction cs with
  | nil => simp [Bank.findLoop]
  | cons e es ih =>
    rw [List.cons_append, Bank.findLoop_cons, Bank.findLoop_cons, ih]
    by_cases he : e.getId = clientId
    · simp [he]
    · simp only [he, if_false]
      cases Bank.findLoop es clientId 0 with
      | some p => rfl
      | none =>
        by_cases hc : c.getId = clientId <;> simp [hc]

/-- C18: lookup is stable under insertion: for every registry, ids i and j and name n, if
`findClientById(i)` finds a client before `addClient` of `Client(j, n)`, it finds the same
client at the same position afterwards, also when j = i; and if `findClientById(j)` was
absent before, afterwards it returns the newly appended client. -/
theorem findClientById_stable_under_addClient (b : Bank) (i j : Int) (n : String) :
    (∀ p : Nat, (b.findClientById i).1 = some p →
      ((b.addClient (Client.new j n)).findClientById i).1 = some p ∧
      (b.addClient (Client.new j n)).clients[p]? = b.clients[p]?) ∧
    (∀ p : Nat, (b.findClientById j).1 = some p →
      ((b.addClient (Client.new j n)).findClientById j).1 = some p) ∧
    ((b.findClientById j).1 = none →
      ((b.addClient (Client.new j n)).findClientById j).1 = some b.clients.length ∧
      (b.addClient (Client.new j n)).clients[b.clients.length]? = some (Client.new j n)) := by
  have hstable : ∀ (k : Int) (p : Nat), (b.findClientById k).1 = some p →
      ((b.addClient (Client.new j n)).findClientById k).1 = some p ∧
      (b.addClient (Client.new j n)).clients[p]? = b.clients[p]? := by
    intro k p hp
    simp only [Bank.findClientById] at hp
    obtain ⟨⟨c, hc, _⟩, _⟩ := (Bank.findLoop_eq_some_iff b.clients k p).mp hp
    have hlt : p < b.clients.length := (List.getElem?_eq_some_iff.mp hc).1
    constructor
    · simp [Bank.findClientById, Bank.addClient, Bank.findLoop_append, hp]
    · simp [Bank.addClient, List.getElem?_append_left hlt]
  refine ⟨hstable i, fun p hp => (hstable j p hp).1, ?_⟩
  intro hnone
  simp only [Bank.findClientById] at hnone
  constructor
  · simp [Bank.findClientById, Bank.addClient, Bank.findLoop_append, hnone, Client.new,
      Client.getId]
  · simp [Bank.addClient]

/-! ## Total interest as a sum -/

theorem foldl_contribution (cs : List Client) (t : ℚ) :
    cs.foldl (fun total c => total + contribution c) t = t + (cs.map contribution).sum := by
  induction cs generalizing t with
  | nil => simp
  | cons c cs ih => simp [ih, add_assoc]

theorem Bank.totalInterest_value (b : Bank) (inst : InstancePtr)
    (h : inst = none ∨ inst = some InterestRates.new) :
    (b.totalInterest inst).1 = (b.clients.map contribution).sum := by
  by_cases hnil : b.clients = []
  · simp [Bank.totalInterest, Bank.hasClients, hnil, zero_literal]
  · obtain ⟨inst', _, hloop⟩ := Bank.interestLoop_of b.clients 0 inst h
    simp [Bank.totalInterest, Bank.hasClients, hnil, hloop, foldl_contribution]

theorem Bank.sum_atClient (f : Client → Client) (cs : List Client) (p : Nat) :
    ((Bank.atClient f cs p).map contribution).sum
      = (cs.map contribution).sum +
        (match cs[p]? with
         | some c => contribution (f c) - contribution c
         | none => 0) := by
  induction cs generalizing p with
  | nil => simp [Bank.atClient]
  | cons c cs ih =>
    cases p with
    | zero =>
      simp [Bank.atClient]
      ring
    | succ q =>
      simp [Bank.atClient, ih q, add_assoc]

theorem contribution_depositAmount (c : Client) (amt : ℚ) :
    contribution (c.depositAmount amt)
      = contribution c +
        (match c.deposit with
         | some d => amt * configuredRate d.type
         | none => 0) := by
  obtain ⟨id, name, dep⟩ := c
  cases dep with
  | none => simp [Client.depositAmount, contribution]
  | some d => simp [Client.depositAmount, contribution, Deposit.addAmount, add_mul]

theorem Bank.depositToClient_cases (b : Bank) (clientId : Int) (amt : ℚ) :
    b.depositToClient clientId amt = (noExistingClient, b) ∨
    b.depositToClient clientId amt = (invalidClientOrAmount, b) ∨
    ∃ p : Nat, (b.findClientById clientId).1 = some p ∧ 0 < amt ∧
      b.depositToClient clientId amt
        = (depositAdded clientId,
            { clients := Bank.atClient (fun c => c.depositAmount amt) b.clients p }) := by
  cases hhas : b.hasClients.1 with
  | false => exact Or.inl (Bank.depositToClient_empty b clientId amt hhas)
  | true =>
    by_cases hbad : (b.findClientById clientId).1 = none ∨ amt ≤ 0
    · exact Or.inr (Or.inl (Bank.depositToClient_invalid b clientId amt hhas hbad))
    · push_neg at hbad
      obtain ⟨p, hp⟩ := Option.ne_none_iff_exists'.mp hbad.1
      exact Or.inr (Or.inr ⟨p, hp, hbad.2,
        Bank.depositToClient_found b clientId amt p hp hbad.2⟩)

/-- C19: total interest tracks replenishment linearly (amounts being exact rationals): for
every registry, id and amount, if `depositToClient(id, amount)` succeeds on a client (the
first with that id) holding a deposit of category c, `totalInterest()` afterwards equals
`totalInterest()` before plus amount * rate(c); if the call fails, or the found client has
no deposit, `totalInterest()` is unchanged; and `addClient` of a new `Client(i, n)` never
changes `totalInterest()`. -/
theorem totalInterest_tracks_replenishment (b : Bank) (clientId : Int) (amt : ℚ)
    (before later : List DepositType) :
    (∀ (p : Nat) (c : Client) (d : Deposit),
      (b.depositToClient clientId amt).1 = depositAdded clientId →
      (b.findClientById clientId).1 = some p → b.clients[p]? = some c → c.deposit = some d →
      ((b.depositToClient clientId amt).2.totalInterest (InterestRates.after later)).1
        = (b.totalInterest (InterestRates.after before)).1 + amt * configuredRate d.type) ∧
    (IsFailure (b.depositToClient clientId amt).1 →
      ((b.depositToClient clientId amt).2.totalInterest (InterestRates.after later)).1
        = (b.totalInterest (InterestRates.after before)).1) ∧
    (∀ (p : Nat) (c : Client),
      (b.findClientById clientId).1 = some p → b.clients[p]? = some c → c.deposit = none →
      ((b.depositToClient clientId amt).2.totalInterest (InterestRates.after later)).1
        = (b.totalInterest (InterestRates.after before)).1) ∧
    (∀ (i : Int) (n : String),
      ((b.addClient (Client.new i n)).totalInterest (InterestRates.after later)).1
        = (b.totalInterest (InterestRates.after before)).1) := by
  have hdist : noExistingClient ≠ depositAdded clientId ∧
      invalidClientOrAmount ≠ depositAdded clientId := by
    simp [noExistingClient, invalidClientOrAmount, depositAdded]
  simp only [Bank.totalInterest_value _ _ (InterestRates.after_cases later),
    Bank.totalInterest_value _ _ (InterestRates.after_cases before)]
  refine ⟨?_, ?_, ?_, ?_⟩
  · intro p c d hout hfind hc hd
    rcases Bank.depositToClient_cases b clientId amt with h | h | ⟨q, hq, hamt, h⟩
    · rw [h] at hout
      exact absurd hout hdist.1
    · rw [h] at hout
      exact absurd hout hdist.2
    · rw [hfind] at hq
      cases hq
      rw [h]
      simp [Bank.sum_atClient, hc, contribution_depositAmount, hd]
  · intro hfail
    rcases Bank.depositToClient_cases b clientId amt with h | h | ⟨q, hq, hamt, h⟩
    · rw [h]
    · rw [h]
    · rw [h] at hfail
      rcases hfail with hf | hf
      · exact absurd hf.symm hdist.1
      · exact absurd hf.symm hdist.2
  · intro p c hfind hc hd
    rcases Bank.depositToClient_cases b clientId amt with h | h | ⟨q, hq, hamt, h⟩
    · rw [h]
    · rw [h]
    · rw [hfind] at hq
      cases hq
      rw [h]
      simp [Bank.sum_atClient, hc, contribution_depositAmount, hd]
  · intro i n
    simp [Bank.addClient, Client.new, contribution]

/-! ## The queries are read-only -/

theorem InterestRates.Instance_of (inst : InstancePtr)
    (h : inst = none ∨ inst = some InterestRates.new) :
    (InterestRates.Instance inst).1 = InterestRates.new := by
  rcases h with h | h <;> rw [h] <;> rfl

theorem Client.getInterest_self (c : Client) (inst : InstancePtr) :
    (c.getInterest inst).2.1 = c := by
  obtain ⟨id, name, dep⟩ := c
  cases dep <;> rfl

theorem Client.getInterest_inst (c : Client) (inst : InstancePtr)
    (h : inst = none ∨ inst = some InterestRates.new) :
    ((c.getInterest inst).2.2 = none ∨ (c.getInterest inst).2.2 = some InterestRates.new) ∧
    (inst = some InterestRates.new → (c.getInterest inst).2.2 = some InterestRates.new) := by
  obtain ⟨id, name, dep⟩ := c
  cases dep with
  | none => exact ⟨h, fun hs => hs⟩
  | some d =>
    have hd := Deposit.depositInterest_of d inst h
    have hres : (Client.getInterest { id := id, name := name, deposit := some d } inst).2.2
        = some InterestRates.new := by
      simp [Client.getInterest, hd]
    exact ⟨Or.inr hres, fun _ => hres⟩

theorem Bank.interestLoop_inst (cs : List Client) (total : ℚ) (inst : InstancePtr)
    (h : inst = none ∨ inst = some InterestRates.new) :
    ((Bank.interestLoop cs total inst).2.2 = none ∨
      (Bank.interestLoop cs total inst).2.2 = some InterestRates.new) ∧
    (inst = some InterestRates.new →
      (Bank.interestLoop cs total inst).2.2 = some InterestRates.new) := by
  induction cs generalizing total inst with
  | nil => exact ⟨h, fun hs => hs⟩
  | cons c cs ih =>
    obtain ⟨h1, h2⟩ := Client.getInterest_inst c inst h
    obtain ⟨h3, h4⟩ := ih (total + (c.getInterest inst).1) (c.getInterest inst).2.2 h1
    exact ⟨h3, fun hs => h4 (h2 hs)⟩

theorem Bank.totalInterest_bank (b : Bank) (inst : InstancePtr) :
    (b.totalInterest inst).2.2.1 = b := by
  by_cases hnil : b.clients = []
  · simp [Bank.totalInterest, Bank.hasClients, hnil]
  · have hcl := Bank.interestLoop_clients b.clients 0 inst
    simp [Bank.totalInterest, Bank.hasClients, hnil, hcl]

theorem Bank.totalInterest_out (b : Bank) (inst : InstancePtr) :
    (b.totalInterest inst).2.1 = if b.clients = [] then noExistingClient else [] := by
  by_cases hnil : b.clients = [] <;>
    simp [Bank.totalInterest, Bank.hasClients, hnil, noExistingClient]

theorem Bank.totalInterest_inst (b : Bank) (inst : InstancePtr)
    (h : inst = none ∨ inst = some InterestRates.new) :
    ((b.totalInterest inst).2.2.2 = none ∨
      (b.totalInterest inst).2.2.2 = some InterestRates.new) ∧
    (inst = some InterestRates.new →
      (b.totalInterest inst).2.2.2 = some InterestRates.new) := by
  by_cases hnil : b.clients = []
  · have hres : (b.totalInterest inst).2.2.2 = inst := by
      simp [Bank.totalInterest, Bank.hasClients, hnil]
    rw [hres]
    exact ⟨h, fun hs => hs⟩
  · have hres : (b.totalInterest inst).2.2.2 = (Bank.interestLoop b.clients 0 inst).2.2 := by
      simp [Bank.totalInterest, Bank.hasClients, hnil]
    rw [hres]
    exact Bank.interestLoop_inst b.clients 0 inst h

/-- C20: the queries are read-only: for every registry state, `hasClients()`,
`findClientById(id)`, `totalInterest()` and a client's `getInterest()` and `getId()` leave the
client sequence, every client and every deposit unchanged; `totalInterest()` and
`getInterest()` leave the rate table unchanged (the table `Instance()` yields is the same
before and after, and an existing table object stays the one it was); and calling any of
them a second time right after returns the same result. -/
theorem queries_read_only (b : Bank) (clientId : Int) (c : Client)
    (calls : List DepositType) :
    (b.hasClients.2 = b ∧ b.hasClients.2.hasClients.1 = b.hasClients.1) ∧
    ((b.findClientById clientId).2 = b ∧
      ((b.findClientById clientId).2.findClientById clientId).1
        = (b.findClientById clientId).1) ∧
    ((b.totalInterest (InterestRates.after calls)).2.2.1 = b ∧
      (InterestRates.Instance (b.totalInterest (InterestRates.after calls)).2.2.2).1
        = (InterestRates.Instance (InterestRates.after calls)).1 ∧
      (∀ t : InterestRates, InterestRates.after calls = some t →
        (b.totalInterest (InterestRates.after calls)).2.2.2 = some t) ∧
      ((b.totalInterest (InterestRates.after calls)).2.2.1.totalInterest
          (b.totalInterest (InterestRates.after calls)).2.2.2).1
        = (b.totalInterest (InterestRates.after calls)).1 ∧
      ((b.totalInterest (InterestRates.after calls)).2.2.1.totalInterest
          (b.totalInterest (InterestRates.after calls)).2.2.2).2.1
        = (b.totalInterest (InterestRates.after calls)).2.1) ∧
    ((c.getInterest (InterestRates.after calls)).2.1 = c ∧
      (InterestRates.Instance (c.getInterest (InterestRates.after calls)).2.2).1
        = (InterestRates.Instance (InterestRates.after calls)).1 ∧
      (∀ t : InterestRates, InterestRates.after calls = some t →
        (c.getInterest (InterestRates.after calls)).2.2 = some t) ∧
      ((c.getInterest (InterestRates.after calls)).2.1.getInterest
          (c.getInterest (InterestRates.after calls)).2.2).1
        = (c.getInterest (InterestRates.after calls)).1) ∧
    (∀ k : DepositType,
      ((InterestRates.Instance (InterestRates.after calls)).1.getRate k).2
        = (InterestRates.Instance (InterestRates.after calls)).1) ∧
    c.getId = c.id := by
  have hr := InterestRates.after_cases calls
  have hsome : ∀ t : InterestRates, InterestRates.after calls = some t →
      InterestRates.after calls = some InterestRates.new := by
    intro t ht
    rcases hr with h | h
    · rw [h] at ht
      cases ht
    · exact h
  refine ⟨⟨rfl, rfl⟩, ⟨rfl, rfl⟩, ?_, ?_, ?_, rfl⟩
  rotate_left 2
  · intro k
    rw [InterestRates.Instance_of _ hr, InterestRates.getRate_new]
  · obtain ⟨h1, h2⟩ := Bank.totalInterest_inst b (InterestRates.after calls) hr
    refine ⟨Bank.totalInterest_bank _ _, ?_, ?_, ?_, ?_⟩
    · rw [InterestRates.Instance_of _ h1, InterestRates.Instance_of _ hr]
    · intro t ht
      have hnew := hsome t ht
      rw [h2 hnew, ← hnew, ht]
    · rw [Bank.totalInterest_bank, Bank.totalInterest_value b _ h1,
        Bank.totalInterest_value b _ hr]
    · rw [Bank.totalInterest_bank, Bank.totalInterest_out, Bank.totalInterest_out]
  · obtain ⟨h1, h2⟩ := Client.getInterest_inst c (InterestRates.after calls) hr
    refine ⟨Client.getInterest_self _ _, ?_, ?_, ?_⟩
    · rw [InterestRates.Instance_of _ h1, InterestRates.Instance_of _ hr]
    · intro t ht
      have hnew := hsome t ht
      rw [h2 hnew, ← hnew, ht]
    · rw [Client.getInterest_self]
      obtain ⟨i1, _, e1⟩ := Client.clientInterest_of c _ h1
      obtain ⟨i2, _, e2⟩ := Client.clientInterest_of c _ hr
      rw [e1, e2]

end BankLedger
